import Mathlib

/-!
Shallow embedding of the second-price auction settlement engine of the
lease-lock repository (`client/scripts/test_auction_logic.py`, class
`AuctionContract`), together with proofs settling the specification claims.

Amounts and timestamps are Python integers, embedded as `Int`.  The
`bids` dictionary (insertion-ordered in Python) is embedded as an
association list whose update keeps the position of an existing key and
appends fresh keys, and the `auctions` dictionary likewise.  A Python
`raise` is an `Except.error` result; because `bid` writes the escrow
entry before the reserve/increment checks and an exception does not undo
the write, every operation returns the (possibly mutated) state next to
its result.
-/

namespace LeaseLock

/-- Mirrors the `Auction` dataclass. -/
structure Auction where
  id : Nat
  lease_id : Nat
  seller : String
  unit : String
  token : String
  reserve : Int
  min_increment : Int
  start_ts : Int
  end_ts : Int
  extend_secs : Int
  extend_window : Int
  max_extensions : Nat
  extensions_count : Nat
  best_bid : Int
  best_bidder : String
  second_bid : Int
  settled : Bool
deriving Repr, DecidableEq

/-- Event tuples appended to `self.events`, one constructor per tuple shape. -/
inductive Event where
  | AucCreate (auction_id lease_id : Nat) (seller unit : String) (reserve : Int)
  | AucExtend (auction_id : Nat) (new_end_ts : Int)
  | BidPlaced (auction_id : Nat) (bidder : String) (new_total time end_ts : Int)
  | Refund (auction_id : Nat) (bidder : String) (amount : Int)
  | AucFailed (auction_id : Nat) (reserve : Int)
  | Payment (kind recipient : String) (amount : Int)
  | AucFinal (auction_id : Nat) (winner : String) (clearing_price : Int) (lease_id : Nat)
  | AucCancel (auction_id : Nat)
deriving Repr, DecidableEq

/-- The `ValueError` strings raised by the contract methods. -/
inductive AuctionError where
  | invalidTimes
  | invalidReserve
  | invalidIncrement
  | invalidExtendWindow
  | invalidExtendSecs
  | invalidAmount
  | auctionNotFound
  | auctionSettled
  | auctionNotStarted
  | auctionEnded
  | belowReserve
  | insufficientIncrement
  | alreadySettled
  | auctionNotEnded
  | cannotCancelWithBids
deriving Repr, DecidableEq

/-- Mirrors the mutable fields of `AuctionContract`. -/
structure ContractState where
  auctions : List (Nat × Auction)
  bids : List ((Nat × String) × Int)
  next_id : Nat
  events : List Event
deriving Repr, DecidableEq

/-- `AuctionContract.__init__`. -/
def initState : ContractState :=
  { auctions := [], bids := [], next_id := 1, events := [] }

/-- Dictionary read `self.auctions.get(auction_id)`. -/
def getAuction : List (Nat × Auction) → Nat → Option Auction
  | [], _ => none
  | (k, a) :: rest, key => if k = key then some a else getAuction rest key

/-- Dictionary write `self.auctions[auction_id] = auction` (updates in place,
appends a fresh key, as a Python dict does). -/
def setAuction : List (Nat × Auction) → Nat → Auction → List (Nat × Auction)
  | [], key, a => [(key, a)]
  | (k, b) :: rest, key, a =>
      if k = key then (k, a) :: rest else (k, b) :: setAuction rest key a

/-- Dictionary read `self.bids.get((auction_id, bidder), 0)`. -/
def getBid : List ((Nat × String) × Int) → Nat × String → Int
  | [], _ => 0
  | (k, v) :: rest, key => if k = key then v else getBid rest key

/-- Dictionary write `self.bids[(auction_id, bidder)] = total`. -/
def setBid : List ((Nat × String) × Int) → Nat × String → Int →
    List ((Nat × String) × Int)
  | [], key, v => [(key, v)]
  | (k, w) :: rest, key, v =>
      if k = key then (k, v) :: rest else (k, w) :: setBid rest key v

/-- `AuctionContract.create`. -/
def create (s : ContractState) (lease_id : Nat) (unit seller token : String)
    (reserve min_increment start_ts end_ts extend_secs extend_window : Int) :
    Except AuctionError Nat × ContractState :=
  if start_ts ≥ end_ts then (.error .invalidTimes, s)
  else if reserve ≤ 0 then (.error .invalidReserve, s)
  else if min_increment ≤ 0 then (.error .invalidIncrement, s)
  else if extend_window = 0 then (.error .invalidExtendWindow, s)
  else if extend_secs = 0 then (.error .invalidExtendSecs, s)
  else
    let auction_id := s.next_id
    let auction : Auction :=
      { id := auction_id, lease_id := lease_id, seller := seller, unit := unit,
        token := token, reserve := reserve, min_increment := min_increment,
        start_ts := start_ts, end_ts := end_ts, extend_secs := extend_secs,
        extend_window := extend_window, max_extensions := 10,
        extensions_count := 0, best_bid := 0, best_bidder := seller,
        second_bid := 0, settled := false }
    (.ok auction_id,
      { s with next_id := s.next_id + 1,
               auctions := setAuction s.auctions auction_id auction,
               events := s.events ++
                 [.AucCreate auction_id lease_id seller unit reserve] })

/-- `AuctionContract.bid`.  Note that the escrow write happens before the
reserve and increment checks, exactly as in the source, so those two errors
return a state whose `bids` entry has already been increased. -/
def bid (s : ContractState) (auction_id : Nat) (bidder : String)
    (amount current_time : Int) : Except AuctionError Bool × ContractState :=
  if amount ≤ 0 then (.error .invalidAmount, s)
  else
    match getAuction s.auctions auction_id with
    | none => (.error .auctionNotFound, s)
    | some auction =>
      if auction.settled then (.error .auctionSettled, s)
      else if current_time < auction.start_ts then (.error .auctionNotStarted, s)
      else if current_time > auction.end_ts then (.error .auctionEnded, s)
      else
        let current_bid := getBid s.bids (auction_id, bidder)
        let new_total := current_bid + amount
        let s1 := { s with bids := setBid s.bids (auction_id, bidder) new_total }
        if new_total < auction.reserve then (.error .belowReserve, s1)
        else if new_total < auction.best_bid + auction.min_increment then
          (.error .insufficientIncrement, s1)
        else
          let a1 := { auction with second_bid := auction.best_bid,
                                   best_bid := new_total, best_bidder := bidder }
          let ext :=
            if a1.extensions_count < a1.max_extensions ∧
                a1.end_ts - current_time ≤ a1.extend_window then
              ({ a1 with end_ts := a1.end_ts + a1.extend_secs,
                         extensions_count := a1.extensions_count + 1 },
               s1.events ++ [.AucExtend auction_id (a1.end_ts + a1.extend_secs)])
            else (a1, s1.events)
          (.ok true,
            { s1 with auctions := setAuction s1.auctions auction_id ext.1,
                      events := ext.2 ++
                        [.BidPlaced auction_id bidder new_total current_time
                          ext.1.end_ts] })

/-- The clearing price computed inside `finalize`:
`max(auction.second_bid, auction.reserve)`. -/
def clearingPrice (a : Auction) : Int :=
  max a.second_bid a.reserve

/-- The refund loop `for (_, bidder), amount in self.bids.items(): if amount > 0`
used by the failed branch of `finalize` and by `cancel`.  As in the source it
discards the auction id of each entry and stamps `aid` on every event. -/
def refundEventsAll (aid : Nat) : List ((Nat × String) × Int) → List Event
  | [] => []
  | ((_, bidder), amount) :: rest =>
      (if 0 < amount then [Event.Refund aid bidder amount] else []) ++
        refundEventsAll aid rest

/-- The refund loop of the success branch of `finalize`:
`if bidder != auction.best_bidder and amount > 0`. -/
def refundEventsOthers (aid : Nat) (best_bidder : String) :
    List ((Nat × String) × Int) → List Event
  | [] => []
  | ((_, bidder), amount) :: rest =>
      (if bidder ≠ best_bidder ∧ 0 < amount then
        [Event.Refund aid bidder amount] else []) ++
        refundEventsOthers aid best_bidder rest

/-- `AuctionContract.finalize`. -/
def finalize (s : ContractState) (auction_id : Nat) (lessor new_lessee : String)
    (current_time : Int) : Except AuctionError Bool × ContractState :=
  match getAuction s.auctions auction_id with
  | none => (.error .auctionNotFound, s)
  | some auction =>
    if auction.settled then (.error .alreadySettled, s)
    else if current_time < auction.end_ts then (.error .auctionNotEnded, s)
    else if auction.best_bid < auction.reserve then
      (.ok false,
        { s with auctions := setAuction s.auctions auction_id
                   { auction with settled := true },
                 events := s.events ++ refundEventsAll auction_id s.bids ++
                   [.AucFailed auction_id auction.reserve] })
    else
      let cp := clearingPrice auction
      let winner_refund := auction.best_bid - cp
      let winEv : List Event :=
        if 0 < winner_refund then
          [.Refund auction_id auction.best_bidder winner_refund] else []
      (.ok true,
        { s with bids := s.bids.filter (fun e => e.1.1 ≠ auction_id),
                 auctions := setAuction s.auctions auction_id
                   { auction with settled := true },
                 events := s.events ++ [.Payment "seller" auction.seller cp] ++
                   winEv ++ refundEventsOthers auction_id auction.best_bidder s.bids ++
                   [.AucFinal auction_id auction.best_bidder cp auction.lease_id] })

/-- `AuctionContract.cancel`. -/
def cancel (s : ContractState) (auction_id : Nat) (current_time : Int) :
    Except AuctionError Bool × ContractState :=
  match getAuction s.auctions auction_id with
  | none => (.error .auctionNotFound, s)
  | some auction =>
    if auction.settled then (.error .alreadySettled, s)
    else
      let has_bids := 0 < auction.best_bid
      if has_bids ∧ current_time ≥ auction.start_ts then
        (.error .cannotCancelWithBids, s)
      else
        (.ok true,
          { s with auctions := setAuction s.auctions auction_id
                     { auction with settled := true },
                   events := s.events ++
                     (if has_bids then refundEventsAll auction_id s.bids else []) ++
                     [.AucCancel auction_id] })

/-- One call to a state-changing method of `AuctionContract`. -/
inductive Op where
  | create (lease_id : Nat) (unit seller token : String)
      (reserve min_increment start_ts end_ts extend_secs extend_window : Int)
  | bid (auction_id : Nat) (bidder : String) (amount current_time : Int)
  | finalize (auction_id : Nat) (lessor new_lessee : String) (current_time : Int)
  | cancel (auction_id : Nat) (current_time : Int)
deriving Repr, DecidableEq

/-- Apply one call, keeping whatever state the call leaves behind (also on an
exception, since in Python the state mutations made before a raise survive). -/
def applyOp (s : ContractState) : Op → ContractState
  | .create lease_id unit seller token reserve min_increment start_ts end_ts
      extend_secs extend_window =>
      (create s lease_id unit seller token reserve min_increment start_ts end_ts
        extend_secs extend_window).2
  | .bid auction_id bidder amount current_time =>
      (bid s auction_id bidder amount current_time).2
  | .finalize auction_id lessor new_lessee current_time =>
      (finalize s auction_id lessor new_lessee current_time).2
  | .cancel auction_id current_time =>
      (cancel s auction_id current_time).2

/-- Apply a sequence of calls. -/
def applyOps (s : ContractState) : List Op → ContractState
  | [] => s
  | op :: rest => applyOps (applyOp s op) rest

/-- Run a sequence of calls on a fresh contract. -/
def run (ops : List Op) : ContractState :=
  applyOps initState ops

/-- Total amount held in the escrow dictionary, over every entry. -/
def totalEscrow (l : List ((Nat × String) × Int)) : Int :=
  (l.map (·.2)).sum

/-- Total amount held in the escrow dictionary by one bidder, over every
entry (of any auction) keyed by that bidder. -/
def sumBidder (l : List ((Nat × String) × Int)) (b : String) : Int :=
  ((l.filter (fun e => e.1.2 = b)).map (·.2)).sum

/-- Sum of the amounts of the `Payment` events in a list. -/
def paySum : List Event → Int
  | [] => 0
  | .Payment _ _ amount :: rest => amount + paySum rest
  | _ :: rest => paySum rest

/-- Sum of the amounts of the `Refund` events in a list. -/
def refundSum : List Event → Int
  | [] => 0
  | .Refund _ _ amount :: rest => amount + refundSum rest
  | _ :: rest => refundSum rest

/-- The second-highest distinct bidder total of an auction: the largest
escrow total held, for that auction, by a bidder other than the leader
(`0` when there is none). -/
def secondDistinct (l : List ((Nat × String) × Int)) (aid : Nat)
    (leader : String) : Int :=
  ((l.filter (fun e => e.1.1 = aid ∧ e.1.2 ≠ leader)).map (·.2)).foldr max 0

/-- Whether the auction of the given id is settled (`false` when unknown). -/
def settledOf (s : ContractState) (aid : Nat) : Bool :=
  match getAuction s.auctions aid with
  | some a => a.settled
  | none => false

/-- Whether `b` differs from the current `best_bidder` of the auction
(`true` when the auction is unknown). -/
def notLeaderB (s : ContractState) (aid : Nat) (b : String) : Bool :=
  match getAuction s.auctions aid with
  | some a => decide (b ≠ a.best_bidder)
  | none => true

/-- Whether a call result is the successful `True` return of `bid`. -/
def isOkTrue : Except AuctionError Bool → Bool
  | .ok true => true
  | _ => false

/-- A history made only of `bid` calls on auction 1 that are all accepted and
are each placed by a bidder who is not the current leader. -/
def goodBids : ContractState → List Op → Bool
  | _, [] => true
  | s, op :: rest =>
      match op with
      | Op.bid aid b amt t =>
          decide (aid = 1) && isOkTrue (bid s aid b amt t).1 &&
            notLeaderB s 1 b && goodBids (applyOp s op) rest
      | _ => false

/-- The happy-path history of `test_happy_path` (times relative to `0`),
stopping just before finalization. -/
def happyOps : List Op :=
  [ .create 1 "unit-a" "seller123" "token456" 100 10 60 3600 60 30,
    .bid 1 "bidder1" 150 120,
    .bid 1 "bidder2" 200 180,
    .bid 1 "bidder1" 60 240,
    .bid 1 "bidder2" 50 300 ]

/-- History refuting C1: a rejected below-reserve bid of 50 escrows anyway,
then a single accepted bid of 60 brings the total to 110. -/
def cx1Ops : List Op :=
  [ .create 1 "u" "s" "t" 100 10 0 100 60 1,
    .bid 1 "b1" 50 10,
    .bid 1 "b1" 60 20 ]

/-- History refuting C2's escrow part: a single below-reserve bid of 50. -/
def cx2Ops : List Op :=
  [ .create 1 "u" "s" "t" 100 10 0 100 60 1 ]

/-- History refuting C3: the leading bidder re-bids over their own leading
position, making `second_bid` track their own prior total of 150 while no
other bidder holds any escrow. -/
def cx3Ops : List Op :=
  [ .create 1 "u" "s" "t" 100 10 0 1000 60 1,
    .bid 1 "b1" 150 10,
    .bid 1 "b1" 15 20 ]

/-- Failing input for C4: two auctions, an accepted bid of 150 on auction 1,
then a reserve-not-met finalization of auction 2. -/
def bug4Ops : List Op :=
  [ .create 1 "u1" "s1" "t1" 100 10 0 1000 60 1,
    .create 2 "u2" "s2" "t2" 100 10 0 10 60 1,
    .bid 1 "b1" 150 0,
    .finalize 2 "lessor" "lessee" 20 ]

/-- Failing input for C5, before the cancel call: an accepted bid of 150 at
the auction's start time. -/
def bug5Pre : List Op :=
  [ .create 1 "u" "s" "t" 100 10 100 200 60 1,
    .bid 1 "b1" 150 100 ]

/-- Failing input for C5: cancel with an earlier clock value than the bid. -/
def bug5Ops : List Op :=
  bug5Pre ++ [ .cancel 1 50 ]

/-- History producing a terminal (cancelled) auction, for C6. -/
def settledOps : List Op :=
  [ .create 1 "u" "s" "t" 100 10 10 20 60 1,
    .cancel 1 0 ]

/-- History refuting C9's end-time bound: creation accepts a negative
`extend_secs` of -5 (only zero is rejected). -/
def cx9Ops : List Op :=
  [ .create 1 "u" "s" "t" 100 10 0 100 (-5) 1 ]

/-- The auction record reached by `happyOps`. -/
def happyAuction : Auction :=
  { id := 1, lease_id := 1, seller := "seller123", unit := "unit-a",
    token := "token456", reserve := 100, min_increment := 10, start_ts := 60,
    end_ts := 3600, extend_secs := 60, extend_window := 30,
    max_extensions := 10, extensions_count := 0, best_bid := 250,
    best_bidder := "bidder2", second_bid := 210, settled := false }

/-- The auction record created by `cx9Ops`. -/
def cx9Auction : Auction :=
  { id := 1, lease_id := 1, seller := "s", unit := "u", token := "t",
    reserve := 100, min_increment := 10, start_ts := 0, end_ts := 100,
    extend_secs := -5, extend_window := 1, max_extensions := 10,
    extensions_count := 0, best_bid := 0, best_bidder := "s",
    second_bid := 0, settled := false }

/-- The auction record created first by `claim_C9_witness`'s input. -/
def w9Auction : Auction :=
  { id := 1, lease_id := 1, seller := "s", unit := "u", token := "t",
    reserve := 100, min_increment := 10, start_ts := 0, end_ts := 100,
    extend_secs := 60, extend_window := 1, max_extensions := 10,
    extensions_count := 0, best_bid := 0, best_bidder := "s",
    second_bid := 0, settled := false }

/-- The auction record reached by `cx3Ops`: the leader re-bid over their own
position, so `second_bid` is their own prior total of 150. -/
def cx3Auction : Auction :=
  { id := 1, lease_id := 1, seller := "s", unit := "u", token := "t",
    reserve := 100, min_increment := 10, start_ts := 0, end_ts := 1000,
    extend_secs := 60, extend_window := 1, max_extensions := 10,
    extensions_count := 0, best_bid := 165, best_bidder := "b1",
    second_bid := 150, settled := false }

/-- Creation call of the C3 witness history. -/
def w3Create : Op := .create 1 "u" "s" "t" 100 10 0 1000 60 1

/-- Two accepted bids by distinct bidders, for the C3 witness. -/
def w3Bids : List Op := [ .bid 1 "b1" 150 10, .bid 1 "b2" 170 20 ]

/-- The auction record reached by the C3 witness history. -/
def w3Auction : Auction :=
  { id := 1, lease_id := 1, seller := "s", unit := "u", token := "t",
    reserve := 100, min_increment := 10, start_ts := 0, end_ts := 1000,
    extend_secs := 60, extend_window := 1, max_extensions := 10,
    extensions_count := 0, best_bid := 170, best_bidder := "b2",
    second_bid := 150, settled := false }

/-- Well-formedness facts that hold for every auction record the contract
ever stores: positive reserve and increment, ordered best/second totals, a
reserve-meeting best bid once one exists, and a bounded extension count. -/
def AuctionWF (a : Auction) : Prop :=
  0 < a.reserve ∧ 0 < a.min_increment ∧ 0 ≤ a.second_bid ∧
  a.second_bid ≤ a.best_bid ∧ (a.best_bid = 0 ∨ a.reserve ≤ a.best_bid) ∧
  a.extensions_count ≤ a.max_extensions ∧ a.max_extensions = 10

/-- Every stored auction is well-formed and keyed below the id counter. -/
def StateWF (s : ContractState) : Prop :=
  ∀ aid a, getAuction s.auctions aid = some a → AuctionWF a ∧ aid < s.next_id

/-- Ghost invariant for C9: the auction created with end time `end0` and
extension step `es` always satisfies
`end_ts = end0 + extensions_count * extend_secs` with at most 10 extensions. -/
def ExtInv (aid : Nat) (end0 es : Int) (s : ContractState) : Prop :=
  aid < s.next_id ∧
  ∃ a, getAuction s.auctions aid = some a ∧ a.max_extensions = 10 ∧
    a.extend_secs = es ∧ a.extensions_count ≤ 10 ∧
    a.end_ts = end0 + a.extensions_count * es

/-- Invariant holding after a `create` followed by any sequence of accepted,
non-leader `bid` calls on auction 1: the leader's escrow equals `best_bid`,
every other escrow total is at most `second_bid`, and `second_bid` is
attained by a non-leader whenever it is non-zero. -/
def BidPhase (s : ContractState) (a : Auction) : Prop :=
  s.auctions = [(1, a)] ∧ a.id = 1 ∧ a.settled = false ∧
  0 < a.reserve ∧ 0 < a.min_increment ∧
  (∀ e ∈ s.bids, e.1.1 = 1 ∧ 0 < e.2) ∧
  getBid s.bids (1, a.best_bidder) = a.best_bid ∧
  (∀ b : String, b ≠ a.best_bidder → getBid s.bids (1, b) ≤ a.second_bid) ∧
  (a.second_bid = 0 ∨
    ∃ b : String, b ≠ a.best_bidder ∧ getBid s.bids (1, b) = a.second_bid) ∧
  0 ≤ a.second_bid ∧ a.second_bid ≤ a.best_bid ∧
  (s.bids.map (·.1)).Nodup

theorem getBid_setBid_self (l : List ((Nat × String) × Int)) (k : Nat × String)
    (v : Int) : getBid (setBid l k v) k = v := by
  induction l with
  | nil => simp [setBid, getBid]
  | cons e rest ih =>
    obtain ⟨k', w⟩ := e
    by_cases h : k' = k
    · simp [setBid, getBid, h]
    · simp [setBid, getBid, h, ih]

theorem getBid_setBid_ne (l : List ((Nat × String) × Int)) (k k' : Nat × String)
    (v : Int) (h : k' ≠ k) : getBid (setBid l k v) k' = getBid l k' := by
  induction l with
  | nil => simp [setBid, getBid, Ne.symm h]
  | cons e rest ih =>
    obtain ⟨k'', w⟩ := e
    by_cases h2 : k'' = k
    · subst h2
      simp [setBid, getBid, Ne.symm h]
    · by_cases h3 : k'' = k'
      · simp [setBid, getBid, h2, h3, h]
      · simp [setBid, getBid, h2, h3, ih]

theorem getAuction_setAuction_self (l : List (Nat × Auction)) (k : Nat)
    (a : Auction) : getAuction (setAuction l k a) k = some a := by
  induction l with
  | nil => simp [setAuction, getAuction]
  | cons e rest ih =>
    obtain ⟨k', b⟩ := e
    by_cases h : k' = k
    · simp [setAuction, getAuction, h]
    · simp [setAuction, getAuction, h, ih]

theorem getAuction_setAuction_ne (l : List (Nat × Auction)) (k k' : Nat)
    (a : Auction) (h : k' ≠ k) :
    getAuction (setAuction l k a) k' = getAuction l k' := by
  induction l with
  | nil => simp [setAuction, getAuction, Ne.symm h]
  | cons e rest ih =>
    obtain ⟨k'', b⟩ := e
    by_cases h2 : k'' = k
    · subst h2
      simp [setAuction, getAuction, Ne.symm h]
    · by_cases h3 : k'' = k'
      · simp [setAuction, getAuction, h2, h3, h]
      · simp [setAuction, getAuction, h2, h3, ih]

theorem mem_setBid (l : List ((Nat × String) × Int)) (k : Nat × String)
    (v : Int) (e : (Nat × String) × Int) :
    e ∈ setBid l k v → e ∈ l ∨ e = (k, v) := by
  induction l with
  | nil =>
    intro he
    simp only [setBid, List.mem_singleton] at he
    exact Or.inr he
  | cons e' rest ih =>
    obtain ⟨k', w⟩ := e'
    intro he
    by_cases h : k' = k
    · subst h
      simp only [setBid, if_pos rfl] at he
      rcases List.mem_cons.mp he with he | he
      · exact Or.inr he
      · exact Or.inl (List.mem_cons_of_mem _ he)
    · simp only [setBid, if_neg h] at he
      rcases List.mem_cons.mp he with he | he
      · exact Or.inl (he ▸ List.mem_cons_self _ _)
      · rcases ih he with h2 | h2
        · exact Or.inl (List.mem_cons_of_mem _ h2)
        · exact Or.inr h2

/-- C2 (amended): a `bid` call rejected with `below-reserve` or
`insufficient-increment` leaves the auction records, the event log and the
id counter unchanged, but the bidder's escrow entry has already been
increased by the bid amount before the failing check. -/
theorem claim_C2_amended (s : ContractState) (aid : Nat) (b : String)
    (amount t : Int)
    (hr : (bid s aid b amount t).1 = .error .belowReserve ∨
          (bid s aid b amount t).1 = .error .insufficientIncrement) :
    (bid s aid b amount t).2.auctions = s.auctions ∧
    (bid s aid b amount t).2.events = s.events ∧
    (bid s aid b amount t).2.next_id = s.next_id ∧
    (bid s aid b amount t).2.bids =
      setBid s.bids (aid, b) (getBid s.bids (aid, b) + amount) ∧
    getBid (bid s aid b amount t).2.bids (aid, b) =
      getBid s.bids (aid, b) + amount := by
  by_cases h0 : amount ≤ 0
  · simp [bid, h0] at hr
  · cases hA : getAuction s.auctions aid with
    | none => simp [bid, h0, hA] at hr
    | some auction =>
      by_cases hS : auction.settled
      · simp [bid, h0, hA, hS] at hr
      · by_cases h1 : t < auction.start_ts
        · simp [bid, h0, hA, hS, h1] at hr
        · by_cases h2 : t > auction.end_ts
          · simp [bid, h0, hA, hS, h1, h2] at hr
          · by_cases h3 : getBid s.bids (aid, b) + amount < auction.reserve
            · simp [bid, h0, hA, hS, h1, h2, h3, getBid_setBid_self]
            · by_cases h4 : getBid s.bids (aid, b) + amount <
                  auction.best_bid + auction.min_increment
              · simp [bid, h0, hA, hS, h1, h2, h3, h4, getBid_setBid_self]
              · simp [bid, h0, hA, hS, h1, h2, h3, h4] at hr

/-- C2 counterexample: the single below-reserve bid of 50 of the spec's own
scenario is rejected, yet the escrow entry moves from 0 to 50, so state is
not left unchanged. -/
theorem claim_C2_counterexample :
    (bid (run cx2Ops) 1 "b1" 50 10).1 = .error .belowReserve ∧
    getBid (run cx2Ops).bids (1, "b1") = 0 ∧
    getBid (bid (run cx2Ops) 1 "b1" 50 10).2.bids (1, "b1") = 50 :=
  ⟨rfl, rfl, rfl⟩

theorem claim_C2_witness :
    ((bid (run cx2Ops) 1 "b1" 50 10).1 = .error .belowReserve ∨
     (bid (run cx2Ops) 1 "b1" 50 10).1 = .error .insufficientIncrement) ∧
    (bid (run cx2Ops) 1 "b1" 50 10).2.bids =
      setBid (run cx2Ops).bids (1, "b1") (getBid (run cx2Ops).bids (1, "b1") + 50) :=
  ⟨Or.inl rfl, (claim_C2_amended (run cx2Ops) 1 "b1" 50 10 (Or.inl rfl)).2.2.2.1⟩

/-- C4 code-bug evaluation: finalizing auction 2 (reserve not met) emits a
`Refund` stamped with auction id 2 for the escrow entry of auction 1, and
zeroes no escrow entry at all. -/
theorem claim_C4_code_bug_eval :
    settledOf (run bug4Ops) 2 = true ∧
    Event.Refund 2 "b1" 150 ∈ (run bug4Ops).events ∧
    Event.AucFailed 2 100 ∈ (run bug4Ops).events ∧
    (run bug4Ops).bids = [((1, "b1"), 150)] := by
  refine ⟨rfl, ?_, ?_, rfl⟩ <;> decide

/-- C5 code-bug evaluation: cancelling the auction at a clock value before
`start_ts` succeeds and emits the refund, but the escrow entry keeps its
value 150 instead of being zeroed. -/
theorem claim_C5_code_bug_eval :
    (cancel (run bug5Pre) 1 50).1 = .ok true ∧
    settledOf (run bug5Ops) 1 = true ∧
    Event.Refund 1 "b1" 150 ∈ (run bug5Ops).events ∧
    (run bug5Ops).bids = [((1, "b1"), 150)] := by
  refine ⟨rfl, rfl, ?_, rfl⟩
  decide

/-- C6 (amended): every call on a terminal auction fails and returns the
state unchanged; the error is the settled-auction error in every case except
a `bid` whose amount fails the `amount <= 0` validation, which is rejected
as `invalid-amount` before the settled check is reached. -/
theorem claim_C6_amended (s : ContractState) (aid : Nat) (a : Auction)
    (b lessor lessee : String) (amount t t2 t3 : Int)
    (ha : getAuction s.auctions aid = some a) (hset : a.settled = true) :
    (¬ amount ≤ 0 → bid s aid b amount t = (.error .auctionSettled, s)) ∧
    (amount ≤ 0 → bid s aid b amount t = (.error .invalidAmount, s)) ∧
    finalize s aid lessor lessee t2 = (.error .alreadySettled, s) ∧
    cancel s aid t3 = (.error .alreadySettled, s) := by
  refine ⟨fun h0 => ?_, fun h0 => ?_, ?_, ?_⟩
  · simp [bid, h0, ha, hset]
  · simp [bid, h0]
  · simp [finalize, ha, hset]
  · simp [cancel, ha, hset]

/-- C6 counterexample: on a terminal auction, a `bid` with amount 0 fails
with `invalid-amount`, not with the settled-auction error the claim
requires for any arguments. -/
theorem claim_C6_counterexample :
    settledOf (run settledOps) 1 = true ∧
    (bid (run settledOps) 1 "b" 0 15).1 = .error .invalidAmount ∧
    AuctionError.invalidAmount ≠ AuctionError.auctionSettled ∧
    AuctionError.invalidAmount ≠ AuctionError.alreadySettled :=
  ⟨rfl, rfl, by decide, by decide⟩

theorem claim_C6_witness :
    settledOf (run settledOps) 1 = true ∧
    bid (run settledOps) 1 "b" 5 15 = (.error .auctionSettled, run settledOps) ∧
    finalize (run settledOps) 1 "l" "n" 15 = (.error .alreadySettled, run settledOps) ∧
    cancel (run settledOps) 1 15 = (.error .alreadySettled, run settledOps) := by
  have h := claim_C6_amended (run settledOps) 1
    { id := 1, lease_id := 1, seller := "s", unit := "u", token := "t",
      reserve := 100, min_increment := 10, start_ts := 10, end_ts := 20,
      extend_secs := 60, extend_window := 1, max_extensions := 10,
      extensions_count := 0, best_bid := 0, best_bidder := "s",
      second_bid := 0, settled := true } "b" "l" "n" 5 15 15 15 rfl rfl
  exact ⟨rfl, h.1 (by norm_num), h.2.2.1, h.2.2.2⟩

/-- C10: for a known non-terminal auction, `bid` is rejected as
`auction-not-started` exactly when `now < start_ts` and as `auction-ended`
exactly when `start_ts ≤ now` and `end_ts < now`; `finalize` is rejected as
`auction-not-ended` exactly when `now < end_ts`; hence at the boundary
instant `now = end_ts` both time guards pass. -/
theorem claim_C10_boundary (s : ContractState) (aid : Nat) (a : Auction)
    (b lessor lessee : String) (amount now : Int)
    (ha : getAuction s.auctions aid = some a) (hns : a.settled = false) :
    (0 < amount →
      (((bid s aid b amount now).1 = .error .auctionNotStarted) ↔
        now < a.start_ts)) ∧
    (0 < amount →
      (((bid s aid b amount now).1 = .error .auctionEnded) ↔
        (a.start_ts ≤ now ∧ a.end_ts < now))) ∧
    (((finalize s aid lessor lessee now).1 = .error .auctionNotEnded) ↔
      now < a.end_ts) ∧
    (a.start_ts ≤ now → now = a.end_ts →
      (bid s aid b amount now).1 ≠ .error .auctionNotStarted ∧
      (bid s aid b amount now).1 ≠ .error .auctionEnded ∧
      (finalize s aid lessor lessee now).1 ≠ .error .auctionNotEnded) := by
  refine ⟨fun h0 => ?_, fun h0 => ?_, ?_, fun hs he => ?_⟩
  · have h0' : ¬ amount ≤ 0 := not_le.mpr h0
    by_cases h1 : now < a.start_ts
    · simp [bid, ha, hns, h0', h1]
    · by_cases h2 : now > a.end_ts
      · simp [bid, ha, hns, h0', h1, h2]
      · by_cases h3 : getBid s.bids (aid, b) + amount < a.reserve
        · simp [bid, ha, hns, h0', h1, h2, h3]
        · by_cases h4 : getBid s.bids (aid, b) + amount <
              a.best_bid + a.min_increment
          · simp [bid, ha, hns, h0', h1, h2, h3, h4]
          · simp [bid, ha, hns, h0', h1, h2, h3, h4]
  · have h0' : ¬ amount ≤ 0 := not_le.mpr h0
    by_cases h1 : now < a.start_ts
    · simp [bid, ha, hns, h0', h1]
    · by_cases h2 : now > a.end_ts
      · simp [bid, ha, hns, h0', h1, h2]
        exact not_lt.mp h1
      · by_cases h3 : getBid s.bids (aid, b) + amount < a.reserve
        · simp [bid, ha, hns, h0', h1, h2, h3]
        · by_cases h4 : getBid s.bids (aid, b) + amount <
              a.best_bid + a.min_increment
          · simp [bid, ha, hns, h0', h1, h2, h3, h4]
          · simp [bid, ha, hns, h0', h1, h2, h3, h4]
  · by_cases h1 : now < a.end_ts
    · simp [finalize, ha, hns, h1]
    · by_cases h2 : a.best_bid < a.reserve
      · simp [finalize, ha, hns, h1, h2]
      · simp [finalize, ha, hns, h1, h2]
  · have h1 : ¬ now < a.start_ts := not_lt.mpr hs
    have h2 : ¬ now > a.end_ts := by
      rw [he]
      exact lt_irrefl _
    have h5 : ¬ now < a.end_ts := by
      rw [he]
      exact lt_irrefl _
    refine ⟨?_, ?_, ?_⟩
    · by_cases h0 : amount ≤ 0
      · simp [bid, h0]
      · by_cases h3 : getBid s.bids (aid, b) + amount < a.reserve
        · simp [bid, ha, hns, h0, h1, h2, h3]
        · by_cases h4 : getBid s.bids (aid, b) + amount <
              a.best_bid + a.min_increment
          · simp [bid, ha, hns, h0, h1, h2, h3, h4]
          · simp [bid, ha, hns, h0, h1, h2, h3, h4]
    · by_cases h0 : amount ≤ 0
      · simp [bid, h0]
      · by_cases h3 : getBid s.bids (aid, b) + amount < a.reserve
        · simp [bid, ha, hns, h0, h1, h2, h3]
        · by_cases h4 : getBid s.bids (aid, b) + amount <
              a.best_bid + a.min_increment
          · simp [bid, ha, hns, h0, h1, h2, h3, h4]
          · simp [bid, ha, hns, h0, h1, h2, h3, h4]
    · by_cases h2' : a.best_bid < a.reserve
      · simp [finalize, ha, hns, h5, h2']
      · simp [finalize, ha, hns, h5, h2']

theorem paySum_append (l1 l2 : List Event) :
    paySum (l1 ++ l2) = paySum l1 + paySum l2 := by
  induction l1 with
  | nil => simp [paySum]
  | cons e rest ih => cases e <;> simp [paySum, ih] <;> ring

theorem refundSum_append (l1 l2 : List Event) :
    refundSum (l1 ++ l2) = refundSum l1 + refundSum l2 := by
  induction l1 with
  | nil => simp [refundSum]
  | cons e rest ih => cases e <;> simp [refundSum, ih] <;> ring

theorem paySum_refundEventsAll (aid : Nat) (l : List ((Nat × String) × Int)) :
    paySum (refundEventsAll aid l) = 0 := by
  induction l with
  | nil => simp [refundEventsAll, paySum]
  | cons e rest ih =>
    obtain ⟨⟨a0, b0⟩, v⟩ := e
    by_cases hv : 0 < v <;> simp [refundEventsAll, hv, paySum, ih]

theorem refundSum_refundEventsAll (aid : Nat) (l : List ((Nat × String) × Int)) :
    (∀ e ∈ l, 0 ≤ e.2) → refundSum (refundEventsAll aid l) = totalEscrow l := by
  induction l with
  | nil =>
    intro h
    simp [refundEventsAll, refundSum, totalEscrow]
  | cons e rest ih =>
    intro h
    obtain ⟨⟨a0, b0⟩, v⟩ := e
    have hrest : ∀ e ∈ rest, 0 ≤ e.2 :=
      fun e he => h e (List.mem_cons_of_mem _ he)
    by_cases hv : 0 < v
    · simp only [refundEventsAll, if_pos hv, List.singleton_append, refundSum]
      rw [ih hrest]
      simp [totalEscrow]
    · have hv0 : v = 0 :=
        le_antisymm (not_lt.mp hv) (h _ (List.mem_cons_self _ _))
      simp only [refundEventsAll, if_neg hv, List.nil_append]
      rw [ih hrest]
      simp [totalEscrow, hv0]

theorem paySum_refundEventsOthers (aid : Nat) (best : String)
    (l : List ((Nat × String) × Int)) :
    paySum (refundEventsOthers aid best l) = 0 := by
  induction l with
  | nil => simp [refundEventsOthers, paySum]
  | cons e rest ih =>
    obtain ⟨⟨a0, b0⟩, v⟩ := e
    by_cases hb : b0 ≠ best ∧ 0 < v <;>
      simp [refundEventsOthers, hb, paySum, ih]

theorem refundSum_refundEventsOthers (aid : Nat) (best : String)
    (l : List ((Nat × String) × Int)) :
    (∀ e ∈ l, 0 ≤ e.2) →
      refundSum (refundEventsOthers aid best l) =
        totalEscrow l - sumBidder l best := by
  induction l with
  | nil =>
    intro h
    simp [refundEventsOthers, refundSum, totalEscrow, sumBidder]
  | cons e rest ih =>
    intro h
    obtain ⟨⟨a0, b0⟩, v⟩ := e
    have hrest : ∀ e ∈ rest, 0 ≤ e.2 :=
      fun e he => h e (List.mem_cons_of_mem _ he)
    by_cases hb : b0 = best
    · have hc : ¬ (b0 ≠ best ∧ 0 < v) := fun hc => hc.1 hb
      simp only [refundEventsOthers, if_neg hc, List.nil_append]
      rw [ih hrest]
      simp [totalEscrow, sumBidder, hb]
    · by_cases hv : 0 < v
      · have hc : b0 ≠ best ∧ 0 < v := ⟨hb, hv⟩
        simp only [refundEventsOthers, if_pos hc, List.singleton_append,
          refundSum]
        rw [ih hrest]
        simp [totalEscrow, sumBidder, hb]
        ring
      · have hv0 : v = 0 :=
          le_antisymm (not_lt.mp hv) (h _ (List.mem_cons_self _ _))
        have hc : ¬ (b0 ≠ best ∧ 0 < v) := fun hc => hv hc.2
        simp only [refundEventsOthers, if_neg hc, List.nil_append]
        rw [ih hrest]
        simp [totalEscrow, sumBidder, hb, hv0]

/-- C1 (amended): for every `finalize` call that reaches a terminal outcome
(either branch), the sum of the `Payment` amounts plus `Refund` amounts it
appends to the event log equals the total amount currently escrowed across
the entire `bids` dictionary (all auctions, including amounts escrowed by
rejected bids) — provided the leading bidder's ledger-wide escrow total
equals `best_bid` and `second_bid ≤ best_bid`. -/
theorem claim_C1_conservation (s : ContractState) (aid : Nat) (a : Auction)
    (lessor lessee : String) (now : Int) (b : Bool)
    (ha : getAuction s.auctions aid = some a)
    (hpos : ∀ e ∈ s.bids, 0 ≤ e.2)
    (hsec : a.second_bid ≤ a.best_bid)
    (hlead : sumBidder s.bids a.best_bidder = a.best_bid)
    (hfin : (finalize s aid lessor lessee now).1 = .ok b) :
    paySum (finalize s aid lessor lessee now).2.events +
      refundSum (finalize s aid lessor lessee now).2.events =
    paySum s.events + refundSum s.events + totalEscrow s.bids := by
  by_cases hS : a.settled
  · simp [finalize, ha, hS] at hfin
  · by_cases hT : now < a.end_ts
    · simp [finalize, ha, hS, hT] at hfin
    · by_cases hR : a.best_bid < a.reserve
      · simp [finalize, ha, hS, hT, hR, paySum_append, refundSum_append,
          refundSum_refundEventsAll aid s.bids hpos, paySum_refundEventsAll,
          paySum, refundSum]
        ring
      · have hbr : a.reserve ≤ a.best_bid := not_lt.mp hR
        have hcp : clearingPrice a ≤ a.best_bid := max_le hsec hbr
        by_cases hw : 0 < a.best_bid - clearingPrice a
        · simp [finalize, ha, hS, hT, hR, hw, paySum_append, refundSum_append,
            paySum, refundSum, paySum_refundEventsOthers,
            refundSum_refundEventsOthers aid a.best_bidder s.bids hpos, hlead]
          ring
        · have hbcp : a.best_bid = clearingPrice a := by
            have := not_lt.mp hw
            omega
          simp [finalize, ha, hS, hT, hR, hw, paySum_append, refundSum_append,
            paySum, refundSum, paySum_refundEventsOthers,
            refundSum_refundEventsOthers aid a.best_bidder s.bids hpos, hlead]
          rw [← hbcp]
          ring

/-- C1 counterexample: reserve 100, a rejected below-reserve bid of 50
escrows anyway, one accepted bid of 60 brings the total to 110; finalize
then pays out 100 and refunds 10, totalling 110 while the accepted bid
amounts sum to 60. -/
theorem claim_C1_counterexample :
    (bid (run (cx1Ops.take 1)) 1 "b1" 50 10).1 = .error .belowReserve ∧
    (bid (run (cx1Ops.take 2)) 1 "b1" 60 20).1 = .ok true ∧
    paySum (run (cx1Ops ++ [.finalize 1 "l" "n" 200])).events +
      refundSum (run (cx1Ops ++ [.finalize 1 "l" "n" 200])).events = 110 ∧
    (110 : Int) ≠ 60 :=
  ⟨rfl, rfl, by decide, by decide⟩

theorem claim_C1_witness :
    paySum (finalize (run happyOps) 1 "lessor" "bidder2" 3700).2.events +
      refundSum (finalize (run happyOps) 1 "lessor" "bidder2" 3700).2.events =
    paySum (run happyOps).events + refundSum (run happyOps).events +
      totalEscrow (run happyOps).bids :=
  claim_C1_conservation (run happyOps) 1
    { id := 1, lease_id := 1, seller := "seller123", unit := "unit-a",
      token := "token456", reserve := 100, min_increment := 10, start_ts := 60,
      end_ts := 3600, extend_secs := 60, extend_window := 30,
      max_extensions := 10, extensions_count := 0, best_bid := 250,
      best_bidder := "bidder2", second_bid := 210, settled := false }
    "lessor" "bidder2" 3700 true rfl (by decide) (by decide) (by decide) rfl

theorem claim_C10_witness :
    getAuction (run cx2Ops).auctions 1 ≠ none ∧
    (bid (run cx2Ops) 1 "b1" 150 100).1 ≠ .error .auctionNotStarted ∧
    (bid (run cx2Ops) 1 "b1" 150 100).1 ≠ .error .auctionEnded ∧
    (finalize (run cx2Ops) 1 "l" "n" 100).1 ≠ .error .auctionNotEnded := by
  have h := claim_C10_boundary (run cx2Ops) 1
    { id := 1, lease_id := 1, seller := "s", unit := "u", token := "t",
      reserve := 100, min_increment := 10, start_ts := 0, end_ts := 100,
      extend_secs := 60, extend_window := 1, max_extensions := 10,
      extensions_count := 0, best_bid := 0, best_bidder := "s",
      second_bid := 0, settled := false } "b1" "l" "n" 150 100 rfl rfl
  have h4 := h.2.2.2 (by norm_num) rfl
  exact ⟨by decide, h4.1, h4.2.1, h4.2.2⟩

theorem stateWF_of_eq (s s' : ContractState) (h : StateWF s)
    (hau : s'.auctions = s.auctions) (hn : s'.next_id = s.next_id) :
    StateWF s' := by
  intro aid a hA
  rw [hau] at hA
  rw [hn]
  exact h aid a hA

theorem stateWF_set (s s' : ContractState) (h : StateWF s) (aid : Nat)
    (a' : Auction) (ha : AuctionWF a') (hid : aid < s.next_id)
    (hau : s'.auctions = setAuction s.auctions aid a')
    (hn : s'.next_id = s.next_id) : StateWF s' := by
  intro k bb hk
  rw [hau] at hk
  rw [hn]
  by_cases hkk : k = aid
  · subst hkk
    rw [getAuction_setAuction_self] at hk
    cases hk
    exact ⟨ha, hid⟩
  · rw [getAuction_setAuction_ne _ _ _ _ hkk] at hk
    exact h k bb hk

theorem stateWF_fresh (s s' : ContractState) (h : StateWF s) (a' : Auction)
    (ha : AuctionWF a')
    (hau : s'.auctions = setAuction s.auctions s.next_id a')
    (hn : s'.next_id = s.next_id + 1) : StateWF s' := by
  intro k bb hk
  rw [hau] at hk
  rw [hn]
  by_cases hkk : k = s.next_id
  · subst hkk
    rw [getAuction_setAuction_self] at hk
    cases hk
    exact ⟨ha, Nat.lt_succ_self _⟩
  · rw [getAuction_setAuction_ne _ _ _ _ hkk] at hk
    obtain ⟨hw, hl⟩ := h k bb hk
    exact ⟨hw, Nat.lt_succ_of_lt hl⟩

theorem stateWF_init : StateWF initState := by
  intro aid a hA
  simp [initState, getAuction] at hA

theorem stateWF_applyOp (s : ContractState) (op : Op) (h : StateWF s) :
    StateWF (applyOp s op) := by
  cases op with
  | create lease unit seller token reserve inc start_ts end_ts es ew =>
    by_cases h1 : start_ts ≥ end_ts
    · exact stateWF_of_eq s _ h (by simp [applyOp, create, h1])
        (by simp [applyOp, create, h1])
    · by_cases h2 : reserve ≤ 0
      · exact stateWF_of_eq s _ h (by simp [applyOp, create, h1, h2])
          (by simp [applyOp, create, h1, h2])
      · by_cases h3 : inc ≤ 0
        · exact stateWF_of_eq s _ h (by simp [applyOp, create, h1, h2, h3])
            (by simp [applyOp, create, h1, h2, h3])
        · by_cases h4 : ew = 0
          · exact stateWF_of_eq s _ h
              (by simp [applyOp, create, h1, h2, h3, h4])
              (by simp [applyOp, create, h1, h2, h3, h4])
          · by_cases h5 : es = 0
            · exact stateWF_of_eq s _ h
                (by simp [applyOp, create, h1, h2, h3, h4, h5])
                (by simp [applyOp, create, h1, h2, h3, h4, h5])
            · refine stateWF_fresh s _ h
                { id := s.next_id, lease_id := lease, seller := seller,
                  unit := unit, token := token, reserve := reserve,
                  min_increment := inc, start_ts := start_ts,
                  end_ts := end_ts, extend_secs := es, extend_window := ew,
                  max_extensions := 10, extensions_count := 0, best_bid := 0,
                  best_bidder := seller, second_bid := 0, settled := false }
                ⟨not_le.mp h2, not_le.mp h3, le_refl 0, le_refl 0,
                  Or.inl rfl, by norm_num, rfl⟩
                (by simp [applyOp, create, h1, h2, h3, h4, h5])
                (by simp [applyOp, create, h1, h2, h3, h4, h5])
  | bid aid b amt t =>
    by_cases h0 : amt ≤ 0
    · exact stateWF_of_eq s _ h (by simp [applyOp, bid, h0])
        (by simp [applyOp, bid, h0])
    · cases hA : getAuction s.auctions aid with
      | none =>
        exact stateWF_of_eq s _ h (by simp [applyOp, bid, h0, hA])
          (by simp [applyOp, bid, h0, hA])
      | some auction =>
        obtain ⟨hWF, hlt⟩ := h aid auction hA
        obtain ⟨wres, winc, wsec0, wsecle, wbest, wext, wmax⟩ := hWF
        by_cases hS : auction.settled
        · exact stateWF_of_eq s _ h (by simp [applyOp, bid, h0, hA, hS])
            (by simp [applyOp, bid, h0, hA, hS])
        · by_cases hT1 : t < auction.start_ts
          · exact stateWF_of_eq s _ h
              (by simp [applyOp, bid, h0, hA, hS, hT1])
              (by simp [applyOp, bid, h0, hA, hS, hT1])
          · by_cases hT2 : t > auction.end_ts
            · exact stateWF_of_eq s _ h
                (by simp [applyOp, bid, h0, hA, hS, hT1, hT2])
                (by simp [applyOp, bid, h0, hA, hS, hT1, hT2])
            · by_cases hR : getBid s.bids (aid, b) + amt < auction.reserve
              · exact stateWF_of_eq s _ h
                  (by simp [applyOp, bid, h0, hA, hS, hT1, hT2, hR])
                  (by simp [applyOp, bid, h0, hA, hS, hT1, hT2, hR])
              · by_cases hI : getBid s.bids (aid, b) + amt <
                    auction.best_bid + auction.min_increment
                · exact stateWF_of_eq s _ h
                    (by simp [applyOp, bid, h0, hA, hS, hT1, hT2, hR, hI])
                    (by simp [applyOp, bid, h0, hA, hS, hT1, hT2, hR, hI])
                · have hbb : auction.best_bid ≤ getBid s.bids (aid, b) + amt := by
                    have := not_lt.mp hI
                    linarith
                  have hb0 : 0 ≤ auction.best_bid := le_trans wsec0 wsecle
                  by_cases hE : auction.extensions_count < auction.max_extensions ∧
                      auction.end_ts ≤ auction.extend_window + t
                  · exact stateWF_set s _ h aid
                      { auction with
                        second_bid := auction.best_bid,
                        best_bid := getBid s.bids (aid, b) + amt,
                        best_bidder := b,
                        end_ts := auction.end_ts + auction.extend_secs,
                        extensions_count := auction.extensions_count + 1 }
                      ⟨wres, winc, hb0, hbb, Or.inr (not_lt.mp hR),
                        hE.1, wmax⟩
                      hlt
                      (by simp [applyOp, bid, h0, hA, hS, hT1, hT2, hR, hI, hE])
                      (by simp [applyOp, bid, h0, hA, hS, hT1, hT2, hR, hI, hE])
                  · exact stateWF_set s _ h aid
                      { auction with
                        second_bid := auction.best_bid,
                        best_bid := getBid s.bids (aid, b) + amt,
                        best_bidder := b }
                      ⟨wres, winc, hb0, hbb, Or.inr (not_lt.mp hR),
                        wext, wmax⟩
                      hlt
                      (by simp [applyOp, bid, h0, hA, hS, hT1, hT2, hR, hI, hE])
                      (by simp [applyOp, bid, h0, hA, hS, hT1, hT2, hR, hI, hE])
  | finalize aid lessor lessee t =>
    cases hA : getAuction s.auctions aid with
    | none =>
      exact stateWF_of_eq s _ h (by simp [applyOp, finalize, hA])
        (by simp [applyOp, finalize, hA])
    | some auction =>
      obtain ⟨hWF, hlt⟩ := h aid auction hA
      by_cases hS : auction.settled
      · exact stateWF_of_eq s _ h (by simp [applyOp, finalize, hA, hS])
          (by simp [applyOp, finalize, hA, hS])
      · by_cases hT : t < auction.end_ts
        · exact stateWF_of_eq s _ h (by simp [applyOp, finalize, hA, hS, hT])
            (by simp [applyOp, finalize, hA, hS, hT])
        · by_cases hR : auction.best_bid < auction.reserve
          · exact stateWF_set s _ h aid { auction with settled := true }
              hWF hlt (by simp [applyOp, finalize, hA, hS, hT, hR])
              (by simp [applyOp, finalize, hA, hS, hT, hR])
          · exact stateWF_set s _ h aid { auction with settled := true }
              hWF hlt (by simp [applyOp, finalize, hA, hS, hT, hR])
              (by simp [applyOp, finalize, hA, hS, hT, hR])
  | cancel aid t =>
    cases hA : getAuction s.auctions aid with
    | none =>
      exact stateWF_of_eq s _ h (by simp [applyOp, cancel, hA])
        (by simp [applyOp, cancel, hA])
    | some auction =>
      obtain ⟨hWF, hlt⟩ := h aid auction hA
      by_cases hS : auction.settled
      · exact stateWF_of_eq s _ h (by simp [applyOp, cancel, hA, hS])
          (by simp [applyOp, cancel, hA, hS])
      · by_cases hC : 0 < auction.best_bid ∧ t ≥ auction.start_ts
        · exact stateWF_of_eq s _ h (by simp [applyOp, cancel, hA, hS, hC])
            (by simp [applyOp, cancel, hA, hS, hC])
        · exact stateWF_set s _ h aid { auction with settled := true }
            hWF hlt (by simp [applyOp, cancel, hA, hS, hC])
            (by simp [applyOp, cancel, hA, hS, hC])

theorem stateWF_applyOps (l : List Op) : ∀ s, StateWF s → StateWF (applyOps s l) := by
  induction l with
  | nil =>
    intro s h
    exact h
  | cons op rest ih =>
    intro s h
    exact ih _ (stateWF_applyOp s op h)

theorem stateWF_run (ops : List Op) : StateWF (run ops) :=
  stateWF_applyOps ops initState stateWF_init

theorem applyOp_spec (s : ContractState) (op : Op) (h : StateWF s) :
    ((applyOp s op).auctions = s.auctions ∧
      (applyOp s op).next_id = s.next_id) ∨
    (∃ a0 : Auction,
      (applyOp s op).auctions = setAuction s.auctions s.next_id a0 ∧
      (applyOp s op).next_id = s.next_id + 1) ∨
    (∃ aid0 a0 a1, getAuction s.auctions aid0 = some a0 ∧
      (applyOp s op).auctions = setAuction s.auctions aid0 a1 ∧
      (applyOp s op).next_id = s.next_id ∧
      a0.best_bid ≤ a1.best_bid ∧
      a1.max_extensions = a0.max_extensions ∧
      a1.extend_secs = a0.extend_secs ∧
      ((a1.extensions_count = a0.extensions_count ∧ a1.end_ts = a0.end_ts) ∨
       (a0.extensions_count < a0.max_extensions ∧
        a1.extensions_count = a0.extensions_count + 1 ∧
        a1.end_ts = a0.end_ts + a0.extend_secs))) := by
  cases op with
  | create lease unit seller token reserve inc st et es ew =>
    by_cases h1 : st ≥ et
    · exact Or.inl ⟨by simp [applyOp, create, h1], by simp [applyOp, create, h1]⟩
    · by_cases h2 : reserve ≤ 0
      · exact Or.inl ⟨by simp [applyOp, create, h1, h2],
          by simp [applyOp, create, h1, h2]⟩
      · by_cases h3 : inc ≤ 0
        · exact Or.inl ⟨by simp [applyOp, create, h1, h2, h3],
            by simp [applyOp, create, h1, h2, h3]⟩
        · by_cases h4 : ew = 0
          · exact Or.inl ⟨by simp [applyOp, create, h1, h2, h3, h4],
              by simp [applyOp, create, h1, h2, h3, h4]⟩
          · by_cases h5 : es = 0
            · exact Or.inl ⟨by simp [applyOp, create, h1, h2, h3, h4, h5],
                by simp [applyOp, create, h1, h2, h3, h4, h5]⟩
            · exact Or.inr (Or.inl
                ⟨{ id := s.next_id, lease_id := lease, seller := seller,
                   unit := unit, token := token, reserve := reserve,
                   min_increment := inc, start_ts := st, end_ts := et,
                   extend_secs := es, extend_window := ew,
                   max_extensions := 10, extensions_count := 0, best_bid := 0,
                   best_bidder := seller, second_bid := 0, settled := false },
                 by simp [applyOp, create, h1, h2, h3, h4, h5],
                 by simp [applyOp, create, h1, h2, h3, h4, h5]⟩)
  | bid aid b amt t =>
    by_cases h0 : amt ≤ 0
    · exact Or.inl ⟨by simp [applyOp, bid, h0], by simp [applyOp, bid, h0]⟩
    · cases hA : getAuction s.auctions aid with
      | none =>
        exact Or.inl ⟨by simp [applyOp, bid, h0, hA],
          by simp [applyOp, bid, h0, hA]⟩
      | some auction =>
        obtain ⟨hWF, hlt⟩ := h aid auction hA
        obtain ⟨wres, winc, wsec0, wsecle, wbest, wext, wmax⟩ := hWF
        by_cases hS : auction.settled
        · exact Or.inl ⟨by simp [applyOp, bid, h0, hA, hS],
            by simp [applyOp, bid, h0, hA, hS]⟩
        · by_cases hT1 : t < auction.start_ts
          · exact Or.inl ⟨by simp [applyOp, bid, h0, hA, hS, hT1],
              by simp [applyOp, bid, h0, hA, hS, hT1]⟩
          · by_cases hT2 : t > auction.end_ts
            · exact Or.inl ⟨by simp [applyOp, bid, h0, hA, hS, hT1, hT2],
                by simp [applyOp, bid, h0, hA, hS, hT1, hT2]⟩
            · by_cases hR : getBid s.bids (aid, b) + amt < auction.reserve
              · exact Or.inl
                  ⟨by simp [applyOp, bid, h0, hA, hS, hT1, hT2, hR],
                   by simp [applyOp, bid, h0, hA, hS, hT1, hT2, hR]⟩
              · by_cases hI : getBid s.bids (aid, b) + amt <
                    auction.best_bid + auction.min_increment
                · exact Or.inl
                    ⟨by simp [applyOp, bid, h0, hA, hS, hT1, hT2, hR, hI],
                     by simp [applyOp, bid, h0, hA, hS, hT1, hT2, hR, hI]⟩
                · have hbb : auction.best_bid ≤ getBid s.bids (aid, b) + amt := by
                    have := not_lt.mp hI
                    linarith
                  by_cases hE : auction.extensions_count < auction.max_extensions ∧
                      auction.end_ts ≤ auction.extend_window + t
                  · exact Or.inr (Or.inr ⟨aid, auction,
                      { auction with
                        second_bid := auction.best_bid,
                        best_bid := getBid s.bids (aid, b) + amt,
                        best_bidder := b,
                        end_ts := auction.end_ts + auction.extend_secs,
                        extensions_count := auction.extensions_count + 1 },
                      hA,
                      by simp [applyOp, bid, h0, hA, hS, hT1, hT2, hR, hI, hE],
                      by simp [applyOp, bid, h0, hA, hS, hT1, hT2, hR, hI, hE],
                      hbb, rfl, rfl, Or.inr ⟨hE.1, rfl, rfl⟩⟩)
                  · exact Or.inr (Or.inr ⟨aid, auction,
                      { auction with
                        second_bid := auction.best_bid,
                        best_bid := getBid s.bids (aid, b) + amt,
                        best_bidder := b },
                      hA,
                      by simp [applyOp, bid, h0, hA, hS, hT1, hT2, hR, hI, hE],
                      by simp [applyOp, bid, h0, hA, hS, hT1, hT2, hR, hI, hE],
                      hbb, rfl, rfl, Or.inl ⟨rfl, rfl⟩⟩)
  | finalize aid lessor lessee t =>
    cases hA : getAuction s.auctions aid with
    | none =>
      exact Or.inl ⟨by simp [applyOp, finalize, hA],
        by simp [applyOp, finalize, hA]⟩
    | some auction =>
      by_cases hS : auction.settled
      · exact Or.inl ⟨by simp [applyOp, finalize, hA, hS],
          by simp [applyOp, finalize, hA, hS]⟩
      · by_cases hT : t < auction.end_ts
        · exact Or.inl ⟨by simp [applyOp, finalize, hA, hS, hT],
            by simp [applyOp, finalize, hA, hS, hT]⟩
        · by_cases hR : auction.best_bid < auction.reserve
          · exact Or.inr (Or.inr ⟨aid, auction,
              { auction with settled := true }, hA,
              by simp [applyOp, finalize, hA, hS, hT, hR],
              by simp [applyOp, finalize, hA, hS, hT, hR],
              le_refl _, rfl, rfl, Or.inl ⟨rfl, rfl⟩⟩)
          · exact Or.inr (Or.inr ⟨aid, auction,
              { auction with settled := true }, hA,
              by simp [applyOp, finalize, hA, hS, hT, hR],
              by simp [applyOp, finalize, hA, hS, hT, hR],
              le_refl _, rfl, rfl, Or.inl ⟨rfl, rfl⟩⟩)
  | cancel aid t =>
    cases hA : getAuction s.auctions aid with
    | none =>
      exact Or.inl ⟨by simp [applyOp, cancel, hA],
        by simp [applyOp, cancel, hA]⟩
    | some auction =>
      by_cases hS : auction.settled
      · exact Or.inl ⟨by simp [applyOp, cancel, hA, hS],
          by simp [applyOp, cancel, hA, hS]⟩
      · by_cases hC : 0 < auction.best_bid ∧ t ≥ auction.start_ts
        · exact Or.inl ⟨by simp [applyOp, cancel, hA, hS, hC],
            by simp [applyOp, cancel, hA, hS, hC]⟩
        · exact Or.inr (Or.inr ⟨aid, auction,
            { auction with settled := true }, hA,
            by simp [applyOp, cancel, hA, hS, hC],
            by simp [applyOp, cancel, hA, hS, hC],
            le_refl _, rfl, rfl, Or.inl ⟨rfl, rfl⟩⟩)

/-- C7: whenever `finalize` succeeds on a reachable state, the clearing price
is `max(second_bid, reserve)`, the seller is paid exactly that amount, the
winner is refunded `best_bid - clearing_price` exactly when that is positive,
and `best_bid = clearing_price + winner_refund` holds exactly (with refund 0
when no winner refund is emitted). -/
theorem claim_C7_success (ops : List Op) (aid : Nat) (a : Auction)
    (lessor lessee : String) (now : Int)
    (ha : getAuction (run ops).auctions aid = some a)
    (hfin : (finalize (run ops) aid lessor lessee now).1 = .ok true) :
    clearingPrice a = max a.second_bid a.reserve ∧
    (finalize (run ops) aid lessor lessee now).2.events =
      (run ops).events ++ [.Payment "seller" a.seller (clearingPrice a)] ++
        (if 0 < a.best_bid - clearingPrice a then
          [Event.Refund aid a.best_bidder (a.best_bid - clearingPrice a)]
        else []) ++
        refundEventsOthers aid a.best_bidder (run ops).bids ++
        [.AucFinal aid a.best_bidder (clearingPrice a) a.lease_id] ∧
    a.best_bid = clearingPrice a +
      (if 0 < a.best_bid - clearingPrice a then a.best_bid - clearingPrice a
       else 0) := by
  obtain ⟨hWF, _⟩ := stateWF_run ops aid a ha
  obtain ⟨wres, winc, wsec0, wsecle, wbest, wext, wmax⟩ := hWF
  by_cases hS : a.settled
  · simp [finalize, ha, hS] at hfin
  · by_cases hT : now < a.end_ts
    · simp [finalize, ha, hS, hT] at hfin
    · by_cases hR : a.best_bid < a.reserve
      · simp [finalize, ha, hS, hT, hR] at hfin
      · have hcp : clearingPrice a ≤ a.best_bid := max_le wsecle (not_lt.mp hR)
        refine ⟨rfl, ?_, ?_⟩
        · simp [finalize, ha, hS, hT, hR]
        · by_cases hw : 0 < a.best_bid - clearingPrice a
          · simp only [if_pos hw]
            ring
          · simp only [if_neg hw]
            have := not_lt.mp hw
            omega

theorem claim_C7_witness :
    happyAuction.best_bid = clearingPrice happyAuction +
      (if 0 < happyAuction.best_bid - clearingPrice happyAuction then
        happyAuction.best_bid - clearingPrice happyAuction
      else 0) :=
  (claim_C7_success happyOps 1 happyAuction "lessor" "bidder2" 3700 rfl rfl).2.2

/-- C8: on every reachable state, `second_bid ≤ best_bid` holds for every
stored auction; `best_bid` never decreases across any further call; and a
successful `create` initializes both totals to 0. -/
theorem claim_C8_leadership (ops : List Op) :
    (∀ aid a, getAuction (run ops).auctions aid = some a →
      a.second_bid ≤ a.best_bid) ∧
    (∀ op aid a a', getAuction (run ops).auctions aid = some a →
      getAuction (applyOp (run ops) op).auctions aid = some a' →
      a.best_bid ≤ a'.best_bid) ∧
    (∀ lease unit seller token reserve inc st et es ew aid',
      (create (run ops) lease unit seller token reserve inc st et es
        ew).1 = .ok aid' →
      ∃ a', getAuction (create (run ops) lease unit seller token reserve inc
          st et es ew).2.auctions aid' = some a' ∧
        a'.best_bid = 0 ∧ a'.second_bid = 0) := by
  have hWF := stateWF_run ops
  refine ⟨?_, ?_, ?_⟩
  · intro aid a ha
    exact ((hWF aid a ha).1).2.2.2.1
  · intro op aid a a' ha ha'
    rcases applyOp_spec (run ops) op hWF with ⟨hau, _⟩ | ⟨a0, hau, _⟩ |
      ⟨aid0, a0, a1, hA0, hau, _, hmono, _⟩
    · rw [hau, ha] at ha'
      cases ha'
      exact le_refl _
    · rw [hau] at ha'
      by_cases hk : aid = (run ops).next_id
      · subst hk
        exact absurd ((hWF _ a ha).2) (lt_irrefl _)
      · rw [getAuction_setAuction_ne _ _ _ _ hk, ha] at ha'
        cases ha'
        exact le_refl _
    · rw [hau] at ha'
      by_cases hk : aid = aid0
      · subst hk
        rw [ha] at hA0
        cases hA0
        rw [getAuction_setAuction_self] at ha'
        cases ha'
        exact hmono
      · rw [getAuction_setAuction_ne _ _ _ _ hk, ha] at ha'
        cases ha'
        exact le_refl _
  · intro lease unit seller token reserve inc st et es ew aid' hok
    by_cases h1 : st ≥ et
    · simp [create, h1] at hok
    · by_cases h2 : reserve ≤ 0
      · simp [create, h1, h2] at hok
      · by_cases h3 : inc ≤ 0
        · simp [create, h1, h2, h3] at hok
        · by_cases h4 : ew = 0
          · simp [create, h1, h2, h3, h4] at hok
          · by_cases h5 : es = 0
            · simp [create, h1, h2, h3, h4, h5] at hok
            · simp only [create, if_neg h1, if_neg h2, if_neg h3, if_neg h4,
                if_neg h5, Except.ok.injEq] at hok
              subst hok
              refine ⟨{
                  id := (run ops).next_id, lease_id := lease,
                  seller := seller, unit := unit, token := token,
                  reserve := reserve, min_increment := inc, start_ts := st,
                  end_ts := et, extend_secs := es, extend_window := ew,
                  max_extensions := 10, extensions_count := 0, best_bid := 0,
                  best_bidder := seller, second_bid := 0,
                  settled := false }, ?_, rfl, rfl⟩
              have hstep : (create (run ops) lease unit seller token reserve
                  inc st et es ew).2.auctions =
                  setAuction (run ops).auctions (run ops).next_id
                  { id := (run ops).next_id, lease_id := lease,
                    seller := seller, unit := unit, token := token,
                    reserve := reserve, min_increment := inc, start_ts := st,
                    end_ts := et, extend_secs := es, extend_window := ew,
                    max_extensions := 10, extensions_count := 0,
                    best_bid := 0, best_bidder := seller, second_bid := 0,
                    settled := false } := by
                simp [create, h1, h2, h3, h4, h5]
              rw [hstep]
              exact getAuction_setAuction_self _ _ _

theorem claim_C8_witness :
    happyAuction.second_bid ≤ happyAuction.best_bid ∧
    happyAuction.best_bid ≤
      ({ happyAuction with settled := true } : Auction).best_bid := by
  have h := claim_C8_leadership happyOps
  exact ⟨h.1 1 happyAuction rfl,
    h.2.1 (Op.cancel 1 0) 1 happyAuction
      { happyAuction with settled := true } rfl rfl⟩

theorem extInv_applyOp (aid : Nat) (end0 es : Int) (s : ContractState)
    (op : Op) (hWF : StateWF s) (hInv : ExtInv aid end0 es s) :
    ExtInv aid end0 es (applyOp s op) := by
  obtain ⟨hlt, a, hA, hmax, hes, hcnt, hend⟩ := hInv
  rcases applyOp_spec s op hWF with ⟨hau, hn⟩ | ⟨a0, hau, hn⟩ |
    ⟨aid0, a0, a1, hA0, hau, hn, _, hmax1, hes1, hdi⟩
  · exact ⟨by rw [hn]; exact hlt, a, by rw [hau]; exact hA, hmax, hes,
      hcnt, hend⟩
  · refine ⟨by rw [hn]; exact Nat.lt_succ_of_lt hlt, a, ?_, hmax, hes,
      hcnt, hend⟩
    rw [hau, getAuction_setAuction_ne _ _ _ _ (Nat.ne_of_lt hlt)]
    exact hA
  · by_cases hk : aid = aid0
    · subst hk
      rw [hA] at hA0
      cases hA0
      have hcnt1 : a1.extensions_count ≤ 10 := by
        rcases hdi with ⟨hc, _⟩ | ⟨h10, hc, _⟩
        · rw [hc]
          exact hcnt
        · rw [hmax] at h10
          omega
      have hend1 : a1.end_ts = end0 + a1.extensions_count * es := by
        rcases hdi with ⟨hc, he⟩ | ⟨h10, hc, he⟩
        · rw [he, hc]
          exact hend
        · rw [he, hc, hend, hes]
          push_cast
          ring
      exact ⟨by rw [hn]; exact hlt, a1,
        by rw [hau]; exact getAuction_setAuction_self _ _ _,
        by rw [hmax1, hmax], by rw [hes1, hes], hcnt1, hend1⟩
    · refine ⟨by rw [hn]; exact hlt, a, ?_, hmax, hes, hcnt, hend⟩
      rw [hau, getAuction_setAuction_ne _ _ _ _ hk]
      exact hA

theorem extInv_applyOps (aid : Nat) (end0 es : Int) (l : List Op) :
    ∀ s, StateWF s → ExtInv aid end0 es s →
      ExtInv aid end0 es (applyOps s l) := by
  induction l with
  | nil =>
    intro s _ h
    exact h
  | cons op rest ih =>
    intro s hWF h
    exact ih _ (stateWF_applyOp s op hWF)
      (extInv_applyOp aid end0 es s op hWF h)

/-- C9 (amended): for every auction and any subsequent history,
`extensions_used` never exceeds `max_extensions = 10`; and whenever
`extend_secs ≥ 0` (creation rejects only `extend_secs = 0`, so negative
values are accepted and shrink `end_ts`), `end_ts` never exceeds the
creation end time plus `10 * extend_secs`. -/
theorem claim_C9_amended (ops1 : List Op) (lease : Nat)
    (unit seller token : String) (reserve inc st et es ew : Int)
    (aid : Nat) (ops2 : List Op) (a : Auction)
    (hok : (create (run ops1) lease unit seller token reserve inc st et es
      ew).1 = .ok aid)
    (ha : getAuction (applyOps (applyOp (run ops1)
        (.create lease unit seller token reserve inc st et es ew))
        ops2).auctions aid = some a) :
    a.extensions_count ≤ a.max_extensions ∧ a.max_extensions = 10 ∧
    (0 ≤ es → a.end_ts ≤ et + 10 * es) := by
  have hWF1 := stateWF_run ops1
  by_cases h1 : st ≥ et
  · simp [create, h1] at hok
  · by_cases h2 : reserve ≤ 0
    · simp [create, h1, h2] at hok
    · by_cases h3 : inc ≤ 0
      · simp [create, h1, h2, h3] at hok
      · by_cases h4 : ew = 0
        · simp [create, h1, h2, h3, h4] at hok
        · by_cases h5 : es = 0
          · simp [create, h1, h2, h3, h4, h5] at hok
          · simp only [create, if_neg h1, if_neg h2, if_neg h3, if_neg h4,
              if_neg h5, Except.ok.injEq] at hok
            subst hok
            have hInv0 : ExtInv (run ops1).next_id et es
                (applyOp (run ops1)
                  (.create lease unit seller token reserve inc st et es ew)) := by
              refine ⟨?_, {
                  id := (run ops1).next_id, lease_id := lease,
                  seller := seller, unit := unit, token := token,
                  reserve := reserve, min_increment := inc, start_ts := st,
                  end_ts := et, extend_secs := es, extend_window := ew,
                  max_extensions := 10, extensions_count := 0, best_bid := 0,
                  best_bidder := seller, second_bid := 0, settled := false },
                ?_, rfl, rfl, by norm_num, by norm_num⟩
              · have : (applyOp (run ops1) (.create lease unit seller token
                    reserve inc st et es ew)).next_id = (run ops1).next_id + 1 := by
                  simp [applyOp, create, h1, h2, h3, h4, h5]
                rw [this]
                exact Nat.lt_succ_self _
              · have hstep : (applyOp (run ops1) (.create lease unit seller
                    token reserve inc st et es ew)).auctions =
                    setAuction (run ops1).auctions (run ops1).next_id
                    { id := (run ops1).next_id, lease_id := lease,
                      seller := seller, unit := unit, token := token,
                      reserve := reserve, min_increment := inc,
                      start_ts := st, end_ts := et, extend_secs := es,
                      extend_window := ew, max_extensions := 10,
                      extensions_count := 0, best_bid := 0,
                      best_bidder := seller, second_bid := 0,
                      settled := false } := by
                  simp [applyOp, create, h1, h2, h3, h4, h5]
                rw [hstep]
                exact getAuction_setAuction_self _ _ _
            have hWF2 : StateWF (applyOp (run ops1)
                (.create lease unit seller token reserve inc st et es ew)) :=
              stateWF_applyOp _ _ hWF1
            have hInv := extInv_applyOps (run ops1).next_id et es ops2 _
              hWF2 hInv0
            obtain ⟨_, a', hA', hmax, hes, hcnt, hend⟩ := hInv
            rw [ha] at hA'
            cases hA'
            refine ⟨by rw [hmax]; exact hcnt, hmax, fun hes0 => ?_⟩
            rw [hend]
            have hc : (a.extensions_count : Int) ≤ 10 := by
              exact_mod_cast hcnt
            have := mul_le_mul_of_nonneg_right hc hes0
            linarith

/-- C9 counterexample: `create` accepts `extend_secs = -5`, and the freshly
created auction already violates the claimed bound
`end_ts ≤ creation end + 10 * extend_secs` (100 > 50) with zero accepted
bids. -/
theorem claim_C9_counterexample :
    getAuction (run cx9Ops).auctions 1 = some cx9Auction ∧
    cx9Auction.end_ts = 100 ∧ cx9Auction.extend_secs = -5 ∧
    cx9Auction.max_extensions = 10 ∧
    ¬ ((100 : Int) ≤ 100 + 10 * (-5)) :=
  ⟨rfl, rfl, rfl, rfl, by norm_num⟩

theorem claim_C9_witness :
    w9Auction.extensions_count ≤ w9Auction.max_extensions ∧
    w9Auction.max_extensions = 10 ∧
    (0 ≤ (60 : Int) → w9Auction.end_ts ≤ 100 + 10 * 60) :=
  claim_C9_amended [] 1 "u" "s" "t" 100 10 0 100 60 1 1 [] w9Auction rfl rfl

theorem foldr_max_nonneg (l : List Int) : 0 ≤ l.foldr max 0 := by
  induction l with
  | nil => simp
  | cons x rest ih => exact le_trans ih (le_max_right _ _)

theorem foldr_max_le (l : List Int) (c : Int) (h0 : 0 ≤ c)
    (h : ∀ v ∈ l, v ≤ c) : l.foldr max 0 ≤ c := by
  induction l with
  | nil => simpa using h0
  | cons x rest ih =>
    simp only [List.foldr_cons]
    exact max_le (h x (List.mem_cons_self _ _))
      (ih fun v hv => h v (List.mem_cons_of_mem _ hv))

theorem le_foldr_max (l : List Int) (v : Int) (h : v ∈ l) :
    v ≤ l.foldr max 0 := by
  induction l with
  | nil => cases h
  | cons x rest ih =>
    rcases List.mem_cons.mp h with rfl | h2
    · exact le_max_left _ _
    · exact le_trans (ih h2) (le_max_right _ _)

theorem getBid_nonneg_of_pos (l : List ((Nat × String) × Int))
    (k : Nat × String) (hpos : ∀ e ∈ l, 0 < e.2) : 0 ≤ getBid l k := by
  induction l with
  | nil => simp [getBid]
  | cons e rest ih =>
    obtain ⟨k', v⟩ := e
    by_cases hk : k' = k
    · simp only [getBid, if_pos hk]
      exact le_of_lt (hpos _ (List.mem_cons_self _ _))
    · simp only [getBid, if_neg hk]
      exact ih fun e he => hpos e (List.mem_cons_of_mem _ he)

theorem getBid_of_mem_nodup (l : List ((Nat × String) × Int))
    (e : (Nat × String) × Int) (hnd : (l.map (·.1)).Nodup) (he : e ∈ l) :
    getBid l e.1 = e.2 := by
  induction l with
  | nil => cases he
  | cons x rest ih =>
    obtain ⟨k, v⟩ := x
    obtain ⟨h1, h2⟩ := List.nodup_cons.mp hnd
    rcases List.mem_cons.mp he with rfl | h3
    · simp [getBid]
    · have hkey : e.1 ∈ rest.map (·.1) := List.mem_map_of_mem _ h3
      have hk : k ≠ e.1 := fun hc => h1 (hc ▸ hkey)
      simp only [getBid, if_neg hk]
      exact ih h2 h3

theorem mem_of_getBid_ne (l : List ((Nat × String) × Int)) (k : Nat × String)
    (h : getBid l k ≠ 0) : (k, getBid l k) ∈ l := by
  induction l with
  | nil => simp [getBid] at h
  | cons x rest ih =>
    obtain ⟨k', v⟩ := x
    by_cases hk : k' = k
    · subst hk
      simp [getBid]
    · simp only [getBid, if_neg hk] at h ⊢
      exact List.mem_cons_of_mem _ (ih h)

theorem nodup_setBid (l : List ((Nat × String) × Int)) (k : Nat × String)
    (v : Int) (hnd : (l.map (·.1)).Nodup) :
    ((setBid l k v).map (·.1)).Nodup := by
  induction l with
  | nil => simp [setBid]
  | cons x rest ih =>
    obtain ⟨k', w⟩ := x
    obtain ⟨h1, h2⟩ := List.nodup_cons.mp hnd
    by_cases hk : k' = k
    · subst hk
      simp only [setBid, if_pos rfl, List.map_cons]
      exact List.nodup_cons.mpr ⟨h1, h2⟩
    · simp only [setBid, if_neg hk, List.map_cons]
      refine List.nodup_cons.mpr ⟨?_, ih h2⟩
      intro hc
      obtain ⟨e, he, hek⟩ := List.mem_map.mp hc
      rcases mem_setBid rest k v e he with h3 | h3
      · apply h1
        rw [← hek]
        exact List.mem_map.mpr ⟨e, h3, rfl⟩
      · apply hk
        rw [← hek, h3]

theorem secondDistinct_eq_of_bidPhase (s : ContractState) (a : Auction)
    (h : BidPhase s a) :
    secondDistinct s.bids 1 a.best_bidder = a.second_bid := by
  obtain ⟨hau, hid, hns, hres, hinc, hkp, hlead, hoth, hatt, hs0, hsle, hnd⟩ := h
  apply le_antisymm
  · apply foldr_max_le _ _ hs0
    intro v hv
    obtain ⟨e, hef, hev⟩ := List.mem_map.mp hv
    have hm := List.mem_filter.mp hef
    have hmem := hm.1
    have hpred : e.1.1 = 1 ∧ e.1.2 ≠ a.best_bidder := by
      have := hm.2
      simpa using this
    have hgb : getBid s.bids e.1 = e.2 := getBid_of_mem_nodup _ _ hnd hmem
    have hkey : e.1 = (1, e.1.2) := by
      rw [← hpred.1]
    rw [← hev, ← hgb, hkey]
    exact hoth e.1.2 hpred.2
  · rcases hatt with h0 | ⟨b, hb, hgb⟩
    · rw [h0]
      exact foldr_max_nonneg _
    · by_cases hz : a.second_bid = 0
      · rw [hz]
        exact foldr_max_nonneg _
      · have hne : getBid s.bids (1, b) ≠ 0 := by
          rw [hgb]
          exact hz
        have hmem : ((1, b), getBid s.bids (1, b)) ∈ s.bids :=
          mem_of_getBid_ne _ _ hne
        have hf : ((1, b), getBid s.bids (1, b)) ∈
            s.bids.filter (fun e => decide (e.1.1 = 1 ∧ e.1.2 ≠ a.best_bidder)) :=
          List.mem_filter.mpr ⟨hmem, by simp [hb]⟩
        have hv : getBid s.bids (1, b) ∈
            (s.bids.filter
              (fun e => decide (e.1.1 = 1 ∧ e.1.2 ≠ a.best_bidder))).map (·.2) :=
          List.mem_map_of_mem _ hf
        rw [← hgb]
        exact le_foldr_max _ _ hv

theorem bidPhase_core (s s' : ContractState) (a a' : Auction) (b : String)
    (amt : Int) (h : BidPhase s a)
    (hb' : s'.bids = setBid s.bids (1, b) (getBid s.bids (1, b) + amt))
    (hau' : s'.auctions = [(1, a')])
    (hf1 : a'.id = 1) (hf2 : a'.settled = false)
    (hf3 : a'.reserve = a.reserve) (hf4 : a'.min_increment = a.min_increment)
    (hf5 : a'.best_bid = getBid s.bids (1, b) + amt)
    (hf6 : a'.best_bidder = b) (hf7 : a'.second_bid = a.best_bid)
    (hnl : b ≠ a.best_bidder) (hamt : 0 < amt)
    (hInc : a.best_bid + a.min_increment ≤ getBid s.bids (1, b) + amt) :
    BidPhase s' a' := by
  obtain ⟨hau, hid, hns, hres, hinc, hkp, hlead, hoth, hatt, hs0, hsle, hnd⟩ := h
  have hpos : ∀ e ∈ s.bids, 0 < e.2 := fun e he => (hkp e he).2
  have hbb' : a.best_bid ≤ getBid s.bids (1, b) + amt := by linarith
  have hnew_pos : 0 < getBid s.bids (1, b) + amt :=
    add_pos_of_nonneg_of_pos (getBid_nonneg_of_pos _ _ hpos) hamt
  refine ⟨hau', hf1, hf2, by rw [hf3]; exact hres, by rw [hf4]; exact hinc,
    ?_, ?_, ?_, ?_, ?_, ?_, ?_⟩
  · intro e he
    rw [hb'] at he
    rcases mem_setBid _ _ _ _ he with h2 | h2
    · exact hkp e h2
    · rw [h2]
      exact ⟨rfl, hnew_pos⟩
  · rw [hb', hf6, hf5, getBid_setBid_self]
  · intro c hc
    rw [hf6] at hc
    have hkne : ((1 : Nat), c) ≠ (1, b) := by
      simp [hc]
    rw [hb', getBid_setBid_ne _ _ _ _ hkne, hf7]
    by_cases hcl : c = a.best_bidder
    · rw [hcl, hlead]
    · exact le_trans (hoth c hcl) hsle
  · right
    refine ⟨a.best_bidder, ?_, ?_⟩
    · rw [hf6]
      exact Ne.symm hnl
    · have hkne : ((1 : Nat), a.best_bidder) ≠ (1, b) := by
        simp [Ne.symm hnl]
      rw [hb', getBid_setBid_ne _ _ _ _ hkne, hlead, hf7]
  · rw [hf7]
    exact le_trans hs0 hsle
  · rw [hf7, hf5]
    exact hbb'
  · rw [hb']
    exact nodup_setBid _ _ _ hnd

theorem bidPhase_step (s : ContractState) (a : Auction) (b : String)
    (amt t : Int) (h : BidPhase s a)
    (hok : isOkTrue (bid s 1 b amt t).1 = true)
    (hnlB : notLeaderB s 1 b = true) :
    ∃ a', BidPhase (applyOp s (.bid 1 b amt t)) a' := by
  have hau := h.1
  have hid := h.2.1
  have hns := h.2.2.1
  have hA : getAuction s.auctions 1 = some a := by
    rw [hau]
    simp [getAuction]
  have hnl : b ≠ a.best_bidder := by
    simp [notLeaderB, hA] at hnlB
    exact hnlB
  by_cases h0 : amt ≤ 0
  · simp [bid, h0, isOkTrue] at hok
  · by_cases hT1 : t < a.start_ts
    · simp [bid, h0, hA, hns, hT1, isOkTrue] at hok
    · by_cases hT2 : t > a.end_ts
      · simp [bid, h0, hA, hns, hT1, hT2, isOkTrue] at hok
      · by_cases hR : getBid s.bids (1, b) + amt < a.reserve
        · simp [bid, h0, hA, hns, hT1, hT2, hR, isOkTrue] at hok
        · by_cases hI : getBid s.bids (1, b) + amt <
              a.best_bid + a.min_increment
          · simp [bid, h0, hA, hns, hT1, hT2, hR, hI, isOkTrue] at hok
          · have hInc : a.best_bid + a.min_increment ≤
                getBid s.bids (1, b) + amt := not_lt.mp hI
            have hamt : 0 < amt := not_le.mp h0
            have hb' : (applyOp s (.bid 1 b amt t)).bids =
                setBid s.bids (1, b) (getBid s.bids (1, b) + amt) := by
              simp [applyOp, bid, h0, hA, hns, hT1, hT2, hR, hI]
            by_cases hE : a.extensions_count < a.max_extensions ∧
                a.end_ts ≤ a.extend_window + t
            · refine ⟨{ a with
                  second_bid := a.best_bid,
                  best_bid := getBid s.bids (1, b) + amt,
                  best_bidder := b,
                  end_ts := a.end_ts + a.extend_secs,
                  extensions_count := a.extensions_count + 1 }, ?_⟩
              refine bidPhase_core s _ a _ b amt h hb' ?_ hid hns rfl rfl
                rfl rfl rfl hnl hamt hInc
              simp [applyOp, bid, h0, hA, hns, hT1, hT2, hR, hI, hE, hau,
                getAuction, setAuction]
            · refine ⟨{ a with
                  second_bid := a.best_bid,
                  best_bid := getBid s.bids (1, b) + amt,
                  best_bidder := b }, ?_⟩
              refine bidPhase_core s _ a _ b amt h hb' ?_ hid hns rfl rfl
                rfl rfl rfl hnl hamt hInc
              simp [applyOp, bid, h0, hA, hns, hT1, hT2, hR, hI, hE, hau,
                getAuction, setAuction]

theorem bidPhase_goodBids (l : List Op) :
    ∀ s a, BidPhase s a → goodBids s l = true →
      ∃ a', BidPhase (applyOps s l) a' := by
  induction l with
  | nil =>
    intro s a h _
    exact ⟨a, h⟩
  | cons op rest ih =>
    intro s a h hg
    cases op with
    | bid aid b amt t =>
      simp only [goodBids, Bool.and_eq_true, decide_eq_true_eq] at hg
      obtain ⟨⟨⟨haid, hok⟩, hnl⟩, hrest⟩ := hg
      subst haid
      obtain ⟨a', h'⟩ := bidPhase_step s a b amt t h hok hnl
      exact ih _ _ h' hrest
    | create lease unit seller token reserve inc st et es ew =>
      simp [goodBids] at hg
    | finalize aid lessor lessee t =>
      simp [goodBids] at hg
    | cancel aid t =>
      simp [goodBids] at hg

theorem bidPhase_create (lease : Nat) (unit seller token : String)
    (reserve inc st et es ew : Int) (h1 : st < et) (h2 : 0 < reserve)
    (h3 : 0 < inc) (h4 : ew ≠ 0) (h5 : es ≠ 0) :
    BidPhase
      (applyOp initState
        (.create lease unit seller token reserve inc st et es ew))
      { id := 1, lease_id := lease, seller := seller, unit := unit,
        token := token, reserve := reserve, min_increment := inc,
        start_ts := st, end_ts := et, extend_secs := es, extend_window := ew,
        max_extensions := 10, extensions_count := 0, best_bid := 0,
        best_bidder := seller, second_bid := 0, settled := false } := by
  have h1' : ¬ st ≥ et := not_le.mpr h1
  have h2' : ¬ reserve ≤ 0 := not_le.mpr h2
  have h3' : ¬ inc ≤ 0 := not_le.mpr h3
  have hbids : (applyOp initState
      (.create lease unit seller token reserve inc st et es ew)).bids = [] := by
    simp [applyOp, create, h1', h2', h3', h4, h5, initState]
  have hauc : (applyOp initState
      (.create lease unit seller token reserve inc st et es ew)).auctions =
      [((1 : Nat), ({
        id := 1, lease_id := lease, seller := seller, unit := unit,
        token := token, reserve := reserve, min_increment := inc,
        start_ts := st, end_ts := et, extend_secs := es, extend_window := ew,
        max_extensions := 10, extensions_count := 0, best_bid := 0,
        best_bidder := seller, second_bid := 0,
        settled := false } : Auction))] := by
    simp [applyOp, create, h1', h2', h3', h4, h5, initState, setAuction]
  refine ⟨hauc, rfl, rfl, h2, h3, ?_, ?_, ?_, Or.inl rfl, le_refl 0,
    le_refl 0, ?_⟩
  · intro e he
    rw [hbids] at he
    cases he
  · rw [hbids]
    rfl
  · intro c hc
    rw [hbids]
    simp [getBid]
  · rw [hbids]
    exact List.nodup_nil

/-- C3 (amended): for a history of `create` followed by accepted bids on
that auction in which no bid is placed by the then-current leader, the
clearing price computed by `finalize` equals
`max(second-highest distinct bidder escrow total, reserve)`.  (When the
leader re-bids over their own position, `second_bid` instead tracks the
leader's own prior total, and this equality fails.) -/
theorem claim_C3_amended (lease : Nat) (unit seller token : String)
    (reserve inc st et es ew : Int) (l : List Op)
    (lessor lessee : String) (now : Int) (a : Auction)
    (h1 : st < et) (h2 : 0 < reserve) (h3 : 0 < inc) (h4 : ew ≠ 0)
    (h5 : es ≠ 0)
    (hg : goodBids (applyOp initState
      (.create lease unit seller token reserve inc st et es ew)) l = true)
    (ha : getAuction (applyOps (applyOp initState
        (.create lease unit seller token reserve inc st et es ew))
        l).auctions 1 = some a)
    (hfin : (finalize (applyOps (applyOp initState
        (.create lease unit seller token reserve inc st et es ew)) l)
        1 lessor lessee now).1 = .ok true) :
    clearingPrice a =
      max (secondDistinct (applyOps (applyOp initState
        (.create lease unit seller token reserve inc st et es ew)) l).bids
        1 a.best_bidder) a.reserve := by
  obtain ⟨a', hP⟩ := bidPhase_goodBids l _ _
    (bidPhase_create lease unit seller token reserve inc st et es ew
      h1 h2 h3 h4 h5) hg
  have ha' : getAuction (applyOps (applyOp initState
      (.create lease unit seller token reserve inc st et es ew))
      l).auctions 1 = some a' := by
    rw [hP.1]
    simp [getAuction]
  rw [ha] at ha'
  cases ha'
  rw [secondDistinct_eq_of_bidPhase _ _ hP]
  rfl

/-- C3 counterexample: after `b1` bids 150 and then re-bids 15 over their own
leading position, `finalize` succeeds with clearing price
`max(second_bid, reserve) = max(150, 100) = 150`, while the second-highest
distinct bidder total is 0, so the claimed value is `max(0, 100) = 100`. -/
theorem claim_C3_counterexample :
    isOkTrue (finalize (run cx3Ops) 1 "l" "n" 2000).1 = true ∧
    getAuction (run cx3Ops).auctions 1 = some cx3Auction ∧
    clearingPrice cx3Auction = 150 ∧
    max (secondDistinct (run cx3Ops).bids 1 cx3Auction.best_bidder)
      cx3Auction.reserve = 100 ∧
    (150 : Int) ≠ 100 :=
  ⟨rfl, rfl, by decide, by decide, by decide⟩

theorem claim_C3_witness :
    clearingPrice w3Auction =
      max (secondDistinct (applyOps (applyOp initState w3Create)
        w3Bids).bids 1 w3Auction.best_bidder) w3Auction.reserve :=
  claim_C3_amended 1 "u" "s" "t" 100 10 0 1000 60 1 w3Bids "l" "n" 2000
    w3Auction (by norm_num) (by norm_num) (by norm_num) (by norm_num)
    (by norm_num) (by decide) rfl rfl

end LeaseLock
